import Mathlib

/-!
Verification of the data-synchronization and replay subsystem of a
browser trading-chart application (chart data loader, replay controller,
period alignment, interval mapping and candle aggregation).

The TypeScript sources are shallowly embedded: JS numbers holding
millisecond timestamps and counts become `Int`, prices and volumes
become `ℚ`, `Math.floor(x / c)` for a positive constant `c` is `Int`
division `/` (Euclidean division agrees with floor division for a
positive divisor), and the JS remainder `%` (which truncates toward
zero) is `jsMod`.  The JS `Date` API (an external runtime facility) is
modelled by a proleptic-Gregorian calendar with the host timezone taken
to be UTC.
-/

/-- One OHLCV candle (`KLineData` in the source).  `open` is a Lean
keyword, so the field is named `open_`. -/
structure KLineData where
  timestamp : Int
  open_ : ℚ
  high : ℚ
  low : ℚ
  close : ℚ
  volume : ℚ
  turnover : ℚ
deriving DecidableEq, Repr

/-- The candle-duration units appearing in the source's `Period` type. -/
inductive PeriodType where
  | second | minute | hour | day | week | month | year
deriving DecidableEq, Repr

/-- A requested candle duration (`Period` in the source): a unit and a
span count.  The display text is irrelevant to the verified logic. -/
structure Period where
  type : PeriodType
  span : Int
deriving DecidableEq, Repr

/-- The JS `%` operator on integers: remainder truncated toward zero
(sign of the dividend).  Only used with positive divisors. -/
def jsMod (a b : Int) : Int :=
  if 0 ≤ a then a % b else -((-a) % b)

/-! ### Model of the JS `Date` API (proleptic Gregorian, UTC)

`daysFromCivil` and `civilFromDays` convert between days-since-epoch
and (year, month 1..12, day-of-month).  The year extraction inside an
era estimates `doe / 366` and bumps it by one when the following year
has already started; correctness of the within-era extraction is
established by an exhaustive check over the 400-year era. -/

/-- Days since the Unix epoch of a civil date (month 1..12). -/
def daysFromCivil (y m d : Int) : Int :=
  let y1 := if m ≤ 2 then y - 1 else y
  let era := y1 / 400
  let yoe := y1 - era * 400
  let mp := if 2 < m then m - 3 else m + 9
  let doy := (153 * mp + 2) / 5 + d - 1
  let doe := 365 * yoe + yoe / 4 - yoe / 100 + doy
  era * 146097 + doe - 719468

/-- Year-of-era (0..399) of a day-of-era (0..146096). -/
def eraYoe (doe : Int) : Int :=
  let y0 := doe / 366
  if 365 * (y0 + 1) + (y0 + 1) / 4 - (y0 + 1) / 100 + (y0 + 1) / 400 ≤ doe
  then y0 + 1 else y0

/-- Day (0..365) within the March-based year of a day-of-era. -/
def eraDoy (doe : Int) : Int :=
  doe - (365 * eraYoe doe + eraYoe doe / 4 - eraYoe doe / 100)

/-- March-based month index (0..11) of a day-of-era. -/
def eraMp (doe : Int) : Int := (5 * eraDoy doe + 2) / 153

/-- Day-of-month (1..31) of a day-of-era. -/
def eraDay (doe : Int) : Int := eraDoy doe - (153 * eraMp doe + 2) / 5 + 1

/-- Civil month (1..12) of a day-of-era. -/
def eraMonth (doe : Int) : Int :=
  if eraMp doe < 10 then eraMp doe + 3 else eraMp doe - 9

/-- Civil date (year, month 1..12, day-of-month) of days-since-epoch. -/
def civilFromDays (z : Int) : Int × Int × Int :=
  let z' := z + 719468
  let era := z' / 146097
  let doe := z' - era * 146097
  (if eraMonth doe ≤ 2 then eraYoe doe + era * 400 + 1 else eraYoe doe + era * 400,
   eraMonth doe, eraDay doe)

/-- Nat version of `eraYoe`, for the exhaustive era check. -/
def eraYoeN (doe : Nat) : Nat :=
  let y0 := doe / 366
  if 365 * (y0 + 1) + (y0 + 1) / 4 - (y0 + 1) / 100 + (y0 + 1) / 400 ≤ doe
  then y0 + 1 else y0

/-- Day-of-era at which March-based year `r` starts. -/
def yearStartN (r : Nat) : Nat := 365 * r + r / 4 - r / 100

/-- Exhaustive check: over a whole 400-year era, the first and the last
possible month-start offsets of every year map back to that year. -/
def eraYoeCheck : Bool :=
  (List.range 400).all fun r =>
    eraYoeN (yearStartN r) == r && eraYoeN (yearStartN r + 337) == r

/-! ### The `Date` accessors used by `adjustFromTo` -/

/-- Milliseconds in one civil day. -/
def dayMs : Int := 86400000

/-- Model of `new Date(t)` decomposed to (year, month 1..12, day). -/
def jsGetYMD (t : Int) : Int × Int × Int := civilFromDays (t / dayMs)

/-- Model of `new Date(d.getFullYear(), d.getMonth(), 1).getTime()` for `d = new Date(t)`. -/
def firstOfMonthMs (t : Int) : Int :=
  daysFromCivil (jsGetYMD t).1 (jsGetYMD t).2.1 1 * dayMs

/-- Model of `new Date(d.getFullYear(), 0, 1).getTime()` for `d = new Date(t)`. -/
def firstOfYearMs (t : Int) : Int :=
  daysFromCivil (jsGetYMD t).1 1 1 * dayMs

/-- Model of `d.getDay()` (0 = Sunday .. 6 = Saturday) for `d = new Date(t)`. -/
def jsGetDay (t : Int) : Int := (t / dayMs + 4) % 7

/-- Model of `d.setHours(0,0,0,0)`: truncate to the start of the civil day. -/
def jsMidnight (t : Int) : Int := t / dayMs * dayMs

/-! ### `ChartDataLoader.adjustFromTo` -/

/-- The period-alignment routine of the chart data loader: truncates
`toTimestamp` down to a unit boundary and subtracts `count` spans.  The
source's `switch` has no `second` case, so a second period falls
through with both bounds untouched.  Returns `(from, to)`. -/
def adjustFromTo (period : Period) (toTimestamp : Int) (count : Int) : Int × Int :=
  match period.type with
  | .minute =>
      let to_ := toTimestamp - jsMod toTimestamp (60 * 1000)
      (to_ - count * period.span * (60 * 1000), to_)
  | .hour =>
      let to_ := toTimestamp - jsMod toTimestamp (60 * 60 * 1000)
      (to_ - count * period.span * (60 * 60 * 1000), to_)
  | .day =>
      let to_ := toTimestamp - jsMod toTimestamp (24 * 60 * 60 * 1000)
      (to_ - count * period.span * (24 * 60 * 60 * 1000), to_)
  | .week =>
      let d := jsGetDay toTimestamp
      let day := if d = 0 then 7 else d
      let to_ := jsMidnight toTimestamp - (day - 1) * (24 * 60 * 60 * 1000)
      (to_ - count * period.span * 7 * (24 * 60 * 60 * 1000), to_)
  | .month =>
      let to_ := firstOfMonthMs toTimestamp
      (firstOfMonthMs (to_ - count * period.span * 30 * (24 * 60 * 60 * 1000)), to_)
  | .year =>
      let to_ := firstOfYearMs toTimestamp
      (firstOfYearMs (to_ - count * period.span * 365 * (24 * 60 * 60 * 1000)), to_)
  | .second => (toTimestamp, toTimestamp)

/-! ### `BinanceDatafeed` interval mapping (`getStrategy`) -/

/-- The provider's natively supported spans per unit (`SUPPORTED_INTERVALS`
in the source; the object has no `year` key). -/
def SUPPORTED_INTERVALS : PeriodType → Option (List Int)
  | .second => some [1]
  | .minute => some [1, 3, 5, 15, 30]
  | .hour => some [1, 2, 4, 6, 8, 12]
  | .day => some [1, 3]
  | .week => some [1]
  | .month => some [1]
  | .year => none

/-- Interval label built in the natively-supported branch (its `switch`
maps `year` to a `M` suffix). -/
def intervalLabelNative (t : PeriodType) (span : Int) : String :=
  toString span ++ (match t with
    | .second => "s" | .minute => "m" | .hour => "h" | .day => "d"
    | .week => "w" | .month => "M" | .year => "M")

/-- Interval label built in the divisor-search branch (its `switch` has
no `year` case, leaving the label empty). -/
def intervalLabelBase (t : PeriodType) (base : Int) : String :=
  match t with
  | .second => toString base ++ "s"
  | .minute => toString base ++ "m"
  | .hour => toString base ++ "h"
  | .day => toString base ++ "d"
  | .week => toString base ++ "w"
  | .month => toString base ++ "M"
  | .year => ""

/-- Model of `[...list].sort((a, b) => b - a)`: sort descending. -/
def sortDesc (l : List Int) : List Int := l.insertionSort (· ≥ ·)

/-- Result of `getStrategy`: provider interval label, aggregation
multiplier, and the base period actually fetched. -/
structure IntervalStrategy where
  interval : String
  multiplier : Int
  baseSpan : Int
  baseType : PeriodType
deriving DecidableEq, Repr

/-- The final fallbacks of `getStrategy` (same-unit smallest span for
minute/hour/day, otherwise 1-minute with multiplier 1). -/
def fallbackStrategy (p : Period) : IntervalStrategy :=
  match p.type with
  | .minute => ⟨"1m", p.span, 1, .minute⟩
  | .hour => ⟨"1h", p.span, 1, .hour⟩
  | .day => ⟨"1d", p.span, 1, .day⟩
  | _ => ⟨"1m", 1, 1, .minute⟩

/-- The mapping `getStrategy`: native span if supported, else the first divisor of
the requested span among the natively supported spans of the same unit
sorted descending, else a fallback. -/
def getStrategy (p : Period) : IntervalStrategy :=
  match SUPPORTED_INTERVALS p.type with
  | some l =>
      if p.span ∈ l then
        ⟨intervalLabelNative p.type p.span, 1, p.span, p.type⟩
      else
        match (sortDesc l).find? (fun base => jsMod p.span base == 0) with
        | some base => ⟨intervalLabelBase p.type base, p.span / base, base, p.type⟩
        | none => fallbackStrategy p
  | none => fallbackStrategy p

/-! ### `BinanceDatafeed.getHistoryKLineData` candle aggregation -/

/-- Bucket assignment of the aggregation fold:
`Math.floor(timestamp / aggDuration) * aggDuration`. -/
def bucketStartOf (aggDuration : Int) (ts : Int) : Int := ts / aggDuration * aggDuration

/-- The fresh aggregate started from base candle `k` (the `!currentAgg`
branch of the fold). -/
def initAgg (agg : Int) (k : KLineData) : KLineData :=
  ⟨bucketStartOf agg k.timestamp, k.open_, k.high, k.low, k.close, k.volume, k.turnover⟩

/-- Merging one more base candle into the open aggregate (the `else`
branch of the fold). -/
def mergeInto (a k : KLineData) : KLineData :=
  { a with high := max a.high k.high, low := min a.low k.low, close := k.close,
           volume := a.volume + k.volume, turnover := a.turnover + k.turnover }

/-- One step of the source's `baseKlines.forEach` fold: push the open
aggregate when the bucket changes, then start or extend the aggregate. -/
def aggStep (agg : Int) (st : List KLineData × Option KLineData) (k : KLineData) :
    List KLineData × Option KLineData :=
  match st.2 with
  | some a =>
      if a.timestamp ≠ bucketStartOf agg k.timestamp then
        (st.1 ++ [a], some (initAgg agg k))
      else
        (st.1, some (mergeInto a k))
  | none => (st.1, some (initAgg agg k))

/-- Flush the still-open aggregate at the end of the fold. -/
def aggFinish (st : List KLineData × Option KLineData) : List KLineData :=
  match st.2 with
  | some a => st.1 ++ [a]
  | none => st.1

/-- The aggregation fold of `getHistoryKLineData` (lines 186-239 of the
datafeed): folds base candles into coarse candles of duration
`aggDuration`. -/
def aggregateBaseKlines (aggDuration : Int) (baseKlines : List KLineData) : List KLineData :=
  aggFinish (baseKlines.foldl (aggStep aggDuration) ([], none))

/-- The tail of `getHistoryKLineData`: base candles are returned as-is
when the multiplier is 1, otherwise aggregated with
`aggDuration = multiplier · baseDuration`. -/
def getHistoryKLineDataAggregate (multiplier baseDuration : Int)
    (baseKlines : List KLineData) : List KLineData :=
  if multiplier = 1 then baseKlines
  else aggregateBaseKlines (multiplier * baseDuration) baseKlines

/-- Specification-side aggregate of a nonempty run `c :: cs`. -/
def aggOfRun (agg : Int) (c : KLineData) (cs : List KLineData) : KLineData :=
  ⟨bucketStartOf agg c.timestamp, c.open_,
   cs.foldl (fun h k => max h k.high) c.high,
   cs.foldl (fun l k => min l k.low) c.low,
   (cs.getLast?.getD c).close,
   cs.foldl (fun v k => v + k.volume) c.volume,
   cs.foldl (fun v k => v + k.turnover) c.turnover⟩

/-- Decomposition of a candle list into maximal consecutive runs of
equal bucket start, each as (first candle, rest of run). -/
def bucketRuns (agg : Int) : List KLineData → List (KLineData × List KLineData)
  | [] => []
  | k :: ks =>
      (k, ks.takeWhile fun j => bucketStartOf agg j.timestamp == bucketStartOf agg k.timestamp) ::
        bucketRuns agg (ks.dropWhile fun j => bucketStartOf agg j.timestamp == bucketStartOf agg k.timestamp)
termination_by l => l.length
decreasing_by
  simp only [List.length_cons]
  exact Nat.lt_succ_of_le (List.Sublist.length_le (List.dropWhile_sublist _))

/-! ### `ChartDataLoader` (the Data Bridge) -/

/-- The mutable fields of `ChartDataLoader`.  The
`_onBackwardDataLoaded` callback slot is modelled by a presence flag. -/
structure BridgeState where
  replayMode : Bool
  replayData : List KLineData
  replayIndex : Int
  historicalOffset : Int
  isLoadingBackward : Bool
  suppressBackwardLoading : Bool
  fetchLimit : Int
  loading : Bool
  subscriptionSuspended : Bool
  hasOnBackwardDataLoaded : Bool
deriving DecidableEq, Repr

/-- The state right after the constructor runs. -/
def initialBridgeState : BridgeState :=
  ⟨false, [], 0, 0, false, false, 500, false, false, false⟩

def setFetchLimit (st : BridgeState) (limit : Int) : BridgeState :=
  { st with fetchLimit := limit }

/-- Operation `setReplayData(data, startIndex)`. -/
def setReplayData (st : BridgeState) (data : List KLineData) (startIndex : Int) : BridgeState :=
  { st with replayMode := true, replayData := data, replayIndex := startIndex,
            historicalOffset := 0, isLoadingBackward := false }

/-- Operation `updateReplayIndex(index)`: convert the absolute array position to
replay progress and clamp. -/
def updateReplayIndex (st : BridgeState) (index : Int) : BridgeState :=
  let logicalIndex := index - st.historicalOffset
  let upper := (st.replayData.length : Int) - st.historicalOffset - 1
  { st with replayIndex := max 0 (min logicalIndex upper) }

/-- Operation `clearReplayMode()`. -/
def clearReplayMode (st : BridgeState) : BridgeState :=
  { st with replayMode := false, replayData := [], replayIndex := 0,
            historicalOffset := 0, isLoadingBackward := false,
            suppressBackwardLoading := false, hasOnBackwardDataLoaded := false }

def setOnBackwardDataLoaded (st : BridgeState) : BridgeState :=
  { st with hasOnBackwardDataLoaded := true }

/-- Getter `visibleEndIndex`. -/
def visibleEndIndex (st : BridgeState) : Int := st.historicalOffset + st.replayIndex

def setSuppressBackwardLoading (st : BridgeState) (suppress : Bool) : BridgeState :=
  { st with suppressBackwardLoading := suppress }

def suspendSubscription (st : BridgeState) : BridgeState :=
  { st with subscriptionSuspended := true }

def resumeSubscription (st : BridgeState) : BridgeState :=
  { st with subscriptionSuspended := false }

/-- The three request kinds of the data loader contract. -/
inductive BarsType where
  | forward | backward | update

/-- Result of the synchronous phase of a replay-mode backward request:
the updated state, the issued fetch range if a provider fetch was
started, and the immediately invoked callback payload otherwise. -/
structure BackwardStart where
  state : BridgeState
  fetchRange : Option (Int × Int)
  immediate : Option (List KLineData × Bool)

/-- Synchronous phase of the replay-mode backward branch of `getBars`:
refuse while guarded, refuse without an oldest timestamp (i.e. a falsy
`replayData[0]?.timestamp`) or without period/symbol; otherwise compute
the aligned range, set the reentrancy guard and issue the fetch. -/
def backwardStart (st : BridgeState) (p : Option Period) (hasSymbol : Bool) : BackwardStart :=
  if st.isLoadingBackward || st.suppressBackwardLoading then
    ⟨st, none, some ([], false)⟩
  else
    match st.replayData.head? with
    | none => ⟨st, none, some ([], false)⟩
    | some c =>
        if c.timestamp = 0 then
          ⟨st, none, some ([], false)⟩
        else
          match p, hasSymbol with
          | some p, true =>
              let oneBeforeOldest := (adjustFromTo p c.timestamp 2).1
              let fromTs := (adjustFromTo p oneBeforeOldest st.fetchLimit).1
              ⟨{ st with isLoadingBackward := true }, some (fromTs, oneBeforeOldest), none⟩
          | _, _ => ⟨st, none, some ([], false)⟩

/-- Resolution of the backward fetch promise.  The `then` branch
filters for strictly older candles, sorts them ascending and, when at
least one survives, prepends them, advances the historical offset and
reports the prepended count; the reentrancy guard stays set (it is
released by a 500 ms timeout, modelled as `releaseBackwardGuard`).
The `catch` branch clears the guard immediately.  Returns the updated
state, the callback payload, and the committed prepend count. -/
def backwardResolve (st : BridgeState) (r : Except Unit (List KLineData)) :
    BridgeState × (List KLineData × Bool) × Option Int :=
  match r with
  | .error _ => ({ st with isLoadingBackward := false }, ([], false), none)
  | .ok olderData =>
      if olderData.length > 0 then
        match st.replayData.head? with
        | none => (st, ([], false), none)
        | some c0 =>
            let validOlderData :=
              (olderData.filter fun d => d.timestamp < c0.timestamp).insertionSort
                (fun a b => a.timestamp ≤ b.timestamp)
            if h : validOlderData.length > 0 then
              if (validOlderData.getLast (by
                    intro hnil
                    rw [hnil] at h
                    simp at h)).timestamp < c0.timestamp then
                ({ st with replayData := validOlderData ++ st.replayData,
                           historicalOffset := st.historicalOffset + validOlderData.length },
                 ([], false), some validOlderData.length)
              else (st, ([], false), none)
            else (st, ([], false), none)
      else (st, ([], false), none)

/-- The deferred `setTimeout` that releases the reentrancy guard. -/
def releaseBackwardGuard (st : BridgeState) : BridgeState :=
  { st with isLoadingBackward := false }

/-- Observable outcome of one complete `getBars` call: the state after
the call settles, the payload passed to the host callback, the range of
the provider fetch that was issued (if any), and the count passed to
the `onBackwardDataLoaded` notification (if a prepend committed). -/
structure GetBarsOut where
  state : BridgeState
  callbackOut : Option (List KLineData × Bool)
  fetchRange : Option (Int × Int)
  backwardLoaded : Option Int
deriving DecidableEq

/-- One complete `getBars` call, parameterised by the provider
response `r` (consumed only on paths that actually fetch).  The
returned value is `.error` exactly when the promise returned to the
host rejects.  On the non-replay forward path the `await`ed fetch has
no surrounding `try`/`catch`, so a provider rejection propagates. -/
def getBars (st : BridgeState) (ty : BarsType) (p : Option Period) (hasSymbol : Bool)
    (timestamp : Option Int) (now : Int) (r : Except Unit (List KLineData)) :
    Except Unit GetBarsOut :=
  if st.replayMode ∧ 0 < st.replayData.length then
    match ty with
    | .backward =>
        let s := backwardStart st p hasSymbol
        match s.fetchRange with
        | none => .ok ⟨s.state, s.immediate, none, none⟩
        | some fr =>
            let res := backwardResolve s.state r
            .ok ⟨res.1, some res.2.1, some fr, res.2.2⟩
    | .update => .ok ⟨st, some ([], false), none, none⟩
    | .forward =>
        .ok ⟨st, some (st.replayData.take (visibleEndIndex st + 1).toNat, true), none, none⟩
  else
    match ty with
    | .backward => .ok ⟨st, some ([], false), none, none⟩
    | .update => .ok ⟨st, some ([], false), none, none⟩
    | .forward =>
        match p with
        | none => .error ()
        | some p =>
            let st1 := { st with loading := true }
            let ts := timestamp.getD now
            let to_ := (adjustFromTo p ts 1).1
            let fromTs := (adjustFromTo p to_ st.fetchLimit).1
            match r with
            | .error e => .error e
            | .ok l =>
                .ok ⟨{ st1 with loading := false },
                     some (l, decide (0 < l.length)), some (fromTs, to_), none⟩

/-- Replay-mode bridge state used in concrete witnesses: a one-candle
buffer whose oldest candle sits at `t = 100`. -/
def witnessBridgeState : BridgeState :=
  { initialBridgeState with replayMode := true, replayData := [⟨100, 1, 2, 0, 1, 3, 4⟩] }

/-- Replay-mode bridge state whose oldest candle sits at a 2-minute
boundary, used by the backward-fetch witnesses. -/
def witnessFetchState : BridgeState :=
  { initialBridgeState with replayMode := true, replayData := [⟨120000, 1, 2, 0, 1, 3, 4⟩] }

/-! ### `ReplayController` (the Replay Clock) -/

/-- State record `ReplayState` from `ReplayTypes.ts`.  The speed multiplier is one
of `{0.5, 1, 2, 5, 10}`, modelled in `ℚ`. -/
structure ReplayState where
  isActive : Bool
  isPaused : Bool
  speed : ℚ
  startTimestamp : Int
  currentIndex : Int
  totalCandles : Int
  fullData : List KLineData
deriving DecidableEq, Repr

/-- Constant `DEFAULT_REPLAY_STATE`. -/
def DEFAULT_REPLAY_STATE : ReplayState := ⟨false, true, 1, 0, 0, 0, []⟩

/-- The controller: its state, whether the repeating timer is armed
(`_timerId !== null`), and the current period. -/
structure ReplayController where
  state : ReplayState
  timerArmed : Bool
  period : Option Period
deriving DecidableEq, Repr

/-- Callback invocations observable by the host (`ReplayCallbacks`). -/
inductive ReplayEvent where
  | modeChange (active : Bool)
  | candleProgress (index : Int) (visible : List KLineData)
  | replayEnd
deriving DecidableEq, Repr

/-- Controller as built by the constructor. -/
def newReplayController : ReplayController := ⟨DEFAULT_REPLAY_STATE, false, none⟩

def setPeriod (c : ReplayController) (p : Period) : ReplayController :=
  { c with period := some p }

/-- Method `_calculateInterval()`: 1000 ms base divided by the speed. -/
def calculateInterval (c : ReplayController) : ℚ :=
  match c.period with
  | none => 1000
  | some _ => 1000 / c.state.speed

/-- Method `_startTimer()`: no-op when already armed. -/
def startTimer (c : ReplayController) : ReplayController :=
  if c.timerArmed then c else { c with timerArmed := true }

/-- Method `_stopTimer()`. -/
def stopTimer (c : ReplayController) : ReplayController :=
  if c.timerArmed then { c with timerArmed := false } else c

/-- Method `_notifyProgress()`: emit the growing prefix up to the current index. -/
def notifyProgress (c : ReplayController) : List ReplayEvent :=
  [.candleProgress c.state.currentIndex
    (c.state.fullData.take (c.state.currentIndex + 1).toNat)]

/-- Operation `start(timestamp, fullData)`: enter replay paused at the first
candle at or after `timestamp` (or 0), at speed 1, and emit the mode
change plus the initial slice. -/
def start (c : ReplayController) (timestamp : Int) (fullData : List KLineData) :
    ReplayController × List ReplayEvent :=
  let startIndex : Int :=
    match fullData.findIdx? (fun d => timestamp ≤ d.timestamp) with
    | some i => (i : Int)
    | none => 0
  let c' := { c with state := ⟨true, true, 1, timestamp, startIndex, (fullData.length : Int), fullData⟩ }
  (c', [.modeChange true, .candleProgress startIndex (fullData.take (startIndex + 1).toNat)])

/-- Operation `stop()`. -/
def stop (c : ReplayController) : ReplayController × List ReplayEvent :=
  ({ stopTimer c with state := DEFAULT_REPLAY_STATE }, [.modeChange false])

/-- Operation `play()`: no-op unless active and paused. -/
def play (c : ReplayController) : ReplayController :=
  if !c.state.isActive || !c.state.isPaused then c
  else startTimer { c with state.isPaused := false }

/-- Operation `pause()`: no-op unless active and playing. -/
def pause (c : ReplayController) : ReplayController :=
  if !c.state.isActive || c.state.isPaused then c
  else stopTimer { c with state.isPaused := true }

/-- Operation `stepForward()`. -/
def stepForward (c : ReplayController) : ReplayController × List ReplayEvent :=
  if !c.state.isActive then (c, [])
  else if c.state.currentIndex < c.state.totalCandles - 1 then
    let c' := { c with state.currentIndex := c.state.currentIndex + 1 }
    (c', notifyProgress c')
  else (c, [.replayEnd])

/-- Operation `stepBackward()`. -/
def stepBackward (c : ReplayController) : ReplayController × List ReplayEvent :=
  if !c.state.isActive then (c, [])
  else if 0 < c.state.currentIndex then
    let c' := { c with state.currentIndex := c.state.currentIndex - 1 }
    (c', notifyProgress c')
  else (c, [])

/-- Operation `setSpeed(speed)`: update the speed and rearm the timer when
playing. -/
def setSpeed (c : ReplayController) (speed : ℚ) : ReplayController :=
  let c' := { c with state.speed := speed }
  if c'.state.isActive && !c'.state.isPaused then startTimer (stopTimer c') else c'

/-- Operation `goToIndex(index)`: clamp into `[0, totalCandles − 1]` and notify. -/
def goToIndex (c : ReplayController) (index : Int) : ReplayController × List ReplayEvent :=
  if !c.state.isActive then (c, [])
  else
    let clamped := max 0 (min index (c.state.totalCandles - 1))
    let c' := { c with state.currentIndex := clamped }
    (c', notifyProgress c')

/-- Operation `updateFullData(newFullData, newIndex)`: replace buffer and index
without emitting. -/
def updateFullData (c : ReplayController) (newFullData : List KLineData) (newIndex : Int) :
    ReplayController :=
  if !c.state.isActive then c
  else
    let s := c.state
    { c with state := { s with fullData := newFullData, totalCandles := (newFullData.length : Int), currentIndex := newIndex } }

/-- Method `_advanceCandle()`: one timer tick. -/
def advanceCandle (c : ReplayController) : ReplayController × List ReplayEvent :=
  if c.state.currentIndex < c.state.totalCandles - 1 then
    let c' := { c with state.currentIndex := c.state.currentIndex + 1 }
    (c', notifyProgress c')
  else
    (pause c, [.replayEnd])

/-- Operation `dispose()`. -/
def dispose (c : ReplayController) : ReplayController :=
  { stopTimer c with state := DEFAULT_REPLAY_STATE }

/-- Iterated timer ticks. -/
def iterateAdvance : Nat → ReplayController → ReplayController
  | 0, c => c
  | n + 1, c => iterateAdvance n (advanceCandle c).1

/-! ### Theorems -/

theorem jsMod_nonneg (a b : Int) (h : 0 ≤ a) : jsMod a b = a % b := by
  simp [jsMod, h]

set_option maxRecDepth 40000 in
theorem eraYoeCheck_true : eraYoeCheck = true := by decide

theorem eraYoeCheck_at (r : Nat) (hr : r < 400) :
    eraYoeN (yearStartN r) = r ∧ eraYoeN (yearStartN r + 337) = r := by
  have h1 := List.all_eq_true.mp eraYoeCheck_true r (List.mem_range.mpr hr)
  simp only [Bool.and_eq_true, beq_iff_eq] at h1
  exact h1

theorem eraYoe_natCast (n : Nat) : eraYoe (n : Int) = (eraYoeN n : Int) := by
  simp only [eraYoe, eraYoeN]
  split_ifs with h1 h2 h2 <;> omega

theorem eraYoe_mono {a b : Int} (h : a ≤ b) : eraYoe a ≤ eraYoe b := by
  simp only [eraYoe]
  split_ifs with h1 h2 h2 <;> omega

/-- Year recovery on every month start of every year of an era. -/
theorem eraYoe_yearStart (r v : Int) (hr0 : 0 ≤ r) (hr1 : r < 400)
    (hv0 : 0 ≤ v) (hv1 : v ≤ 337) :
    eraYoe (365 * r + r / 4 - r / 100 + v) = r := by
  obtain ⟨hlo, hhi⟩ := eraYoeCheck_at r.toNat (by omega)
  have hloI : eraYoe (yearStartN r.toNat : Int) = r := by
    rw [eraYoe_natCast]; omega
  have hhiI : eraYoe ((yearStartN r.toNat : Int) + 337) = r := by
    have hc : ((yearStartN r.toNat + 337 : Nat) : Int) = (yearStartN r.toNat : Int) + 337 := by
      omega
    rw [← hc, eraYoe_natCast]; omega
  have hys : (yearStartN r.toNat : Int) = 365 * r + r / 4 - r / 100 := by
    simp only [yearStartN]; omega
  have h1 := eraYoe_mono (show 365 * r + r / 4 - r / 100 ≤ 365 * r + r / 4 - r / 100 + v by omega)
  have h2 := eraYoe_mono (show 365 * r + r / 4 - r / 100 + v ≤ 365 * r + r / 4 - r / 100 + 337 by omega)
  rw [hys] at hloI hhiI
  omega

/-- Evaluation of `civilFromDays` in terms of an explicit era decomposition. -/
theorem civilFromDays_eq (z q doe : Int) (hz : z + 719468 = q * 146097 + doe)
    (h0 : 0 ≤ doe) (h1 : doe < 146097) :
    civilFromDays z =
      (if eraMonth doe ≤ 2 then eraYoe doe + q * 400 + 1 else eraYoe doe + q * 400,
       eraMonth doe, eraDay doe) := by
  simp only [civilFromDays]
  have hq : (z + 719468) / 146097 = q := by omega
  rw [hq]
  have hd : z + 719468 - q * 146097 = doe := by omega
  rw [hd]

/-- Within-era day bounds: the extracted day-of-year is in `[0, 365]`. -/
theorem eraDoy_bounds (doe : Int) (h0 : 0 ≤ doe) (h1 : doe < 146097) :
    0 ≤ eraDoy doe ∧ eraDoy doe ≤ 365 := by
  simp only [eraDoy, eraYoe]
  by_cases hb : doe / 366 = 399
  · rw [hb]
    split_ifs with h <;> omega
  · have hcf : (doe / 366 + 1) / 4 - doe / 366 / 4 ≤ 1 := by omega
    have hdg : 0 ≤ (doe / 366 + 1) / 100 - doe / 366 / 100 := by omega
    have he : (doe / 366 + 1) / 400 = 0 := by omega
    split_ifs with h <;> omega

theorem eraMp_bounds (doe : Int) (h0 : 0 ≤ doe) (h1 : doe < 146097) :
    0 ≤ eraMp doe ∧ eraMp doe ≤ 11 := by
  obtain ⟨a, b⟩ := eraDoy_bounds doe h0 h1
  simp only [eraMp]
  omega

theorem eraMonth_bounds (doe : Int) (h0 : 0 ≤ doe) (h1 : doe < 146097) :
    1 ≤ eraMonth doe ∧ eraMonth doe ≤ 12 := by
  obtain ⟨a, b⟩ := eraMp_bounds doe h0 h1
  simp only [eraMonth]
  split_ifs with h <;> omega

/-- The month component of `civilFromDays` is always in `[1, 12]`. -/
theorem civilFromDays_month_range (z : Int) :
    1 ≤ (civilFromDays z).2.1 ∧ (civilFromDays z).2.1 ≤ 12 := by
  have hz : z + 719468 = ((z + 719468) / 146097) * 146097 + (z + 719468 - ((z + 719468) / 146097) * 146097) := by
    ring
  have h0 : 0 ≤ z + 719468 - ((z + 719468) / 146097) * 146097 := by omega
  have h1 : z + 719468 - ((z + 719468) / 146097) * 146097 < 146097 := by omega
  rw [civilFromDays_eq z _ _ hz h0 h1]
  exact eraMonth_bounds _ h0 h1

/-- Round trip: the first day of any civil month maps back to itself. -/
theorem civilFromDays_daysFromCivil (y m : Int) (h1 : 1 ≤ m) (h2 : m ≤ 12) :
    civilFromDays (daysFromCivil y m 1) = (y, m, 1) := by
  simp only [daysFromCivil]
  set y1 := if m ≤ 2 then y - 1 else y with hy1
  set mpv := if 2 < m then m - 3 else m + 9 with hmp
  set q := y1 / 400 with hq
  set r := y1 - q * 400 with hr
  have hr0 : 0 ≤ r := by omega
  have hr1 : r < 400 := by omega
  have hm0 : 0 ≤ mpv := by omega
  have hm1 : mpv ≤ 11 := by omega
  have hv0 : 0 ≤ (153 * mpv + 2) / 5 := by omega
  have hv1 : (153 * mpv + 2) / 5 ≤ 337 := by omega
  have hdoe0 : 0 ≤ 365 * r + r / 4 - r / 100 + ((153 * mpv + 2) / 5 + 1 - 1) := by omega
  have hdoe1 : 365 * r + r / 4 - r / 100 + ((153 * mpv + 2) / 5 + 1 - 1) < 146097 := by omega
  rw [civilFromDays_eq _ q (365 * r + r / 4 - r / 100 + ((153 * mpv + 2) / 5 + 1 - 1))
      (by ring) hdoe0 hdoe1]
  have hyoe : eraYoe (365 * r + r / 4 - r / 100 + ((153 * mpv + 2) / 5 + 1 - 1)) = r := by
    have := eraYoe_yearStart r ((153 * mpv + 2) / 5) hr0 hr1 hv0 hv1
    have harg : 365 * r + r / 4 - r / 100 + ((153 * mpv + 2) / 5 + 1 - 1)
        = 365 * r + r / 4 - r / 100 + (153 * mpv + 2) / 5 := by ring
    rw [harg]
    exact this
  have hdoy : eraDoy (365 * r + r / 4 - r / 100 + ((153 * mpv + 2) / 5 + 1 - 1))
      = (153 * mpv + 2) / 5 := by
    simp only [eraDoy, hyoe]
    ring
  have hmpr : eraMp (365 * r + r / 4 - r / 100 + ((153 * mpv + 2) / 5 + 1 - 1)) = mpv := by
    simp only [eraMp, hdoy]
    omega
  have hday : eraDay (365 * r + r / 4 - r / 100 + ((153 * mpv + 2) / 5 + 1 - 1)) = 1 := by
    simp only [eraDay, hdoy, hmpr]
    omega
  have hmonth : eraMonth (365 * r + r / 4 - r / 100 + ((153 * mpv + 2) / 5 + 1 - 1)) = m := by
    simp only [eraMonth, hmpr]
    split_ifs with h <;> omega
  rw [hmonth, hday, hyoe, Prod.mk.injEq, Prod.mk.injEq]
  refine ⟨?_, rfl, rfl⟩
  split_ifs with h <;> omega

theorem firstOfMonthMs_idem (t : Int) :
    firstOfMonthMs (firstOfMonthMs t) = firstOfMonthMs t := by
  simp only [firstOfMonthMs, jsGetYMD]
  have hdiv : daysFromCivil (civilFromDays (t / dayMs)).1 (civilFromDays (t / dayMs)).2.1 1
      * dayMs / dayMs = daysFromCivil (civilFromDays (t / dayMs)).1 (civilFromDays (t / dayMs)).2.1 1 := by
    apply Int.mul_ediv_cancel
    simp [dayMs]
  rw [hdiv]
  obtain ⟨hm1, hm2⟩ := civilFromDays_month_range (t / dayMs)
  rw [civilFromDays_daysFromCivil _ _ hm1 hm2]

theorem firstOfYearMs_idem (t : Int) :
    firstOfYearMs (firstOfYearMs t) = firstOfYearMs t := by
  simp only [firstOfYearMs, jsGetYMD]
  have hdiv : daysFromCivil (civilFromDays (t / dayMs)).1 1 1
      * dayMs / dayMs = daysFromCivil (civilFromDays (t / dayMs)).1 1 1 := by
    apply Int.mul_ediv_cancel
    simp [dayMs]
  rw [hdiv]
  rw [civilFromDays_daysFromCivil _ _ (by omega) (by omega)]

/-- C4 counterexample: for a 2-minute period at `t = 60000` the claim
predicts `to = t − (t mod 120000) = 0`, but the code truncates only to
the 1-minute boundary and returns `to = 60000`, which is not a multiple
of `span·60000`. -/
theorem adjustFromTo_minute_span_counterexample :
    (adjustFromTo ⟨.minute, 2⟩ 60000 1).2 = 60000 ∧
      ¬ ((2 * 60000 : Int) ∣ (adjustFromTo ⟨.minute, 2⟩ 60000 1).2) := by
  decide

/-- C4 (amended): for every minute period the returned `to` is the
input truncated to the 1-minute boundary, `to = t − (t mod 60000)`,
independent of the span, and is therefore always a multiple of 60000
(but not in general of `span·60000`). -/
theorem adjustFromTo_minute_truncation (s t c : Int) :
    (adjustFromTo ⟨.minute, s⟩ t c).2 = t - jsMod t 60000 ∧
      (60000 : Int) ∣ (adjustFromTo ⟨.minute, s⟩ t c).2 := by
  constructor
  · rfl
  · show (60000 : Int) ∣ t - jsMod t 60000
    simp only [jsMod]
    split_ifs with h
    · exact ⟨t / 60000, by omega⟩
    · exact ⟨-(-t / 60000), by omega⟩

/-- C8 counterexample: a negative count is neither rejected nor treated
as zero; for a 1-minute period at `t = 0`, `count = −1` produces
`from = 60000 > 0 = to`. -/
theorem adjustFromTo_negative_count_counterexample :
    (adjustFromTo ⟨.minute, 1⟩ 0 (-1)).1 > (adjustFromTo ⟨.minute, 1⟩ 0 (-1)).2 := by
  decide

/-- C8 (amended): for every period and timestamp, `count = 0` yields
`from = to`; a negative count is not rejected — for minute, hour, day
and week periods with positive span it produces `from > to`. -/
theorem adjustFromTo_zero_and_negative_count (p : Period) (t c : Int) :
    (adjustFromTo p t 0).1 = (adjustFromTo p t 0).2 ∧
      (c < 0 → 0 < p.span →
        (p.type = .minute ∨ p.type = .hour ∨ p.type = .day ∨ p.type = .week) →
        (adjustFromTo p t c).1 > (adjustFromTo p t c).2) := by
  constructor
  · cases hp : p.type <;>
      simp only [adjustFromTo, hp, zero_mul, mul_zero, sub_zero]
    · exact firstOfMonthMs_idem t
    · exact firstOfYearMs_idem t
  · intro hc hs htype
    rcases htype with h | h | h | h <;>
      simp only [adjustFromTo, h, gt_iff_lt, sub_lt_self_iff] <;>
      linarith [mul_neg_of_neg_of_pos hc hs]

/-- C8 witness: the zero-count and negative-count behaviour at a
concrete 1-minute period. -/
theorem adjustFromTo_zero_and_negative_count_witness :
    (adjustFromTo ⟨.minute, 1⟩ 12345 0).1 = (adjustFromTo ⟨.minute, 1⟩ 12345 0).2 ∧
      (adjustFromTo ⟨.minute, 1⟩ 12345 (-1)).1 > (adjustFromTo ⟨.minute, 1⟩ 12345 (-1)).2 :=
  ⟨(adjustFromTo_zero_and_negative_count ⟨.minute, 1⟩ 12345 0).1,
   (adjustFromTo_zero_and_negative_count ⟨.minute, 1⟩ 12345 (-1)).2 (by norm_num) (by norm_num)
     (Or.inl rfl)⟩

/-- On a descending-sorted list, `find?` with a divisibility test finds
a divisor that dominates every divisor in the list. -/
theorem find_divisor_spec (span : Int) (hs : 0 < span) :
    ∀ (l : List Int), l.Sorted (· ≥ ·) → (∃ x, x ∈ l ∧ x ∣ span) →
      ∃ d, l.find? (fun b => jsMod span b == 0) = some d ∧ d ∣ span ∧
        ∀ d', d' ∈ l → d' ∣ span → d' ≤ d := by
  intro l
  induction l with
  | nil =>
      rintro _ ⟨x, hx, _⟩
      exact absurd hx (List.not_mem_nil x)
  | cons a t ih =>
      intro hsort hex
      have hmod : ∀ b : Int, (jsMod span b == 0) = true ↔ b ∣ span := by
        intro b
        rw [jsMod_nonneg span b (le_of_lt hs), beq_iff_eq]
        exact ⟨Int.dvd_of_emod_eq_zero, Int.emod_eq_zero_of_dvd⟩
      by_cases ha : a ∣ span
      · refine ⟨a, ?_, ha, ?_⟩
        · exact List.find?_cons_of_pos t ((hmod a).mpr ha)
        · intro d' hd' _
          rcases List.mem_cons.mp hd' with rfl | hmem
          · exact le_refl d'
          · exact (List.sorted_cons.mp hsort).1 d' hmem
      · have hfalse : ¬ ((jsMod span a == 0) = true) := fun h => ha ((hmod a).mp h)
        obtain ⟨x, hx, hxdvd⟩ := hex
        have hxt : x ∈ t := by
          rcases List.mem_cons.mp hx with rfl | hmem
          · exact absurd hxdvd ha
          · exact hmem
        obtain ⟨d, hfind, hdvd, hmax⟩ :=
          ih (List.sorted_cons.mp hsort).2 ⟨x, hxt, hxdvd⟩
        refine ⟨d, ?_, hdvd, ?_⟩
        · have hstep : List.find? (fun b => jsMod span b == 0) (a :: t)
              = List.find? (fun b => jsMod span b == 0) t :=
            List.find?_cons_of_neg t (by simpa using hfalse)
          rw [hstep]
          exact hfind
        · intro d' hd' hd'dvd
          rcases List.mem_cons.mp hd' with rfl | hmem
          · exact absurd hd'dvd ha
          · exact hmax d' hmem hd'dvd

/-- C7: when the unit is supported but the span is not native,
`getStrategy` picks the largest natively supported span of the unit
that evenly divides the requested span, with multiplier
`span / nativeSpan`; in particular a 7-minute period maps to base
`1m` with multiplier 7. -/
theorem getStrategy_largest_divisor :
    (∀ (p : Period) (l : List Int), SUPPORTED_INTERVALS p.type = some l →
        p.span ∉ l → 0 < p.span →
        ∃ d, d ∈ l ∧ d ∣ p.span ∧ (∀ d', d' ∈ l → d' ∣ p.span → d' ≤ d) ∧
          getStrategy p = ⟨intervalLabelBase p.type d, p.span / d, d, p.type⟩) ∧
      getStrategy ⟨.minute, 7⟩ = ⟨"1m", 7, 1, .minute⟩ := by
  constructor
  · intro p l hsup hnot hpos
    have hone : (1 : Int) ∈ l := by
      cases hp : p.type <;> rw [hp] at hsup <;>
        simp only [SUPPORTED_INTERVALS] at hsup <;>
        (try cases hsup) <;> decide
    have hsorted : (sortDesc l).Sorted (· ≥ ·) := List.sorted_insertionSort _ l
    have hperm : List.Perm (sortDesc l) l := List.perm_insertionSort _ l
    have hex : ∃ x, x ∈ sortDesc l ∧ x ∣ p.span :=
      ⟨1, hperm.mem_iff.mpr hone, one_dvd _⟩
    obtain ⟨d, hfind, hdvd, hmax⟩ := find_divisor_spec p.span hpos (sortDesc l) hsorted hex
    refine ⟨d, hperm.mem_iff.mp (List.mem_of_find?_eq_some hfind), hdvd,
      fun d' hd' hdvd' => hmax d' (hperm.mem_iff.mpr hd') hdvd', ?_⟩
    simp only [getStrategy, hsup, if_neg hnot, hfind]
  · decide

/-- C7 witness: the general branch applied to the 7-minute period over
native minute spans `{1, 3, 5, 15, 30}`. -/
theorem getStrategy_largest_divisor_witness :
    ∃ d, d ∈ ([1, 3, 5, 15, 30] : List Int) ∧ d ∣ (7 : Int) ∧
      (∀ d', d' ∈ ([1, 3, 5, 15, 30] : List Int) → d' ∣ (7 : Int) → d' ≤ d) ∧
      getStrategy ⟨.minute, 7⟩ = ⟨intervalLabelBase .minute d, 7 / d, d, .minute⟩ :=
  getStrategy_largest_divisor.1 ⟨.minute, 7⟩ [1, 3, 5, 15, 30] rfl (by decide) (by decide)

theorem length_dropWhile_le (p : KLineData → Bool) (l : List KLineData) :
    (l.dropWhile p).length ≤ l.length :=
  (List.dropWhile_sublist p).length_le

theorem bucketRuns_nil (agg : Int) : bucketRuns agg [] = [] := by
  rw [bucketRuns]

theorem bucketRuns_cons (agg : Int) (k : KLineData) (ks : List KLineData) :
    bucketRuns agg (k :: ks) =
      (k, ks.takeWhile fun j => bucketStartOf agg j.timestamp == bucketStartOf agg k.timestamp) ::
        bucketRuns agg (ks.dropWhile fun j => bucketStartOf agg j.timestamp == bucketStartOf agg k.timestamp) := by
  rw [bucketRuns]

theorem initAgg_eq_aggOfRun (agg : Int) (k : KLineData) :
    initAgg agg k = aggOfRun agg k [] := rfl

theorem mergeInto_aggOfRun (agg : Int) (c : KLineData) (cs : List KLineData) (k : KLineData) :
    mergeInto (aggOfRun agg c cs) k = aggOfRun agg c (cs ++ [k]) := by
  simp only [mergeInto, aggOfRun, List.foldl_append, List.foldl_cons, List.foldl_nil,
    List.getLast?_concat, Option.getD_some]

theorem aggOfRun_timestamp (agg : Int) (c : KLineData) (cs : List KLineData) :
    (aggOfRun agg c cs).timestamp = bucketStartOf agg c.timestamp := rfl

/-- The fold, started with an open aggregate for the run `c :: cs` and
already-emitted candles `res`, emits exactly the aggregates of the
remaining runs. -/
theorem foldl_aggStep_runs (agg : Int) :
    ∀ (ks : List KLineData) (res : List KLineData) (c : KLineData) (cs : List KLineData),
      aggFinish (ks.foldl (aggStep agg) (res, some (aggOfRun agg c cs))) =
        res ++ (aggOfRun agg c
            (cs ++ ks.takeWhile fun j => bucketStartOf agg j.timestamp == bucketStartOf agg c.timestamp)
          :: (bucketRuns agg (ks.dropWhile fun j =>
                bucketStartOf agg j.timestamp == bucketStartOf agg c.timestamp)).map
              fun r => aggOfRun agg r.1 r.2) := by
  intro ks
  induction ks with
  | nil =>
      intro res c cs
      simp [aggFinish, bucketRuns_nil]
  | cons k ks ih =>
      intro res c cs
      rw [List.foldl_cons]
      by_cases hb : bucketStartOf agg k.timestamp = bucketStartOf agg c.timestamp
      · have hstep : aggStep agg (res, some (aggOfRun agg c cs)) k
            = (res, some (aggOfRun agg c (cs ++ [k]))) := by
          simp only [aggStep, aggOfRun_timestamp]
          rw [if_neg (by simp [hb]), mergeInto_aggOfRun]
        rw [hstep, ih res c (cs ++ [k])]
        rw [List.takeWhile_cons_of_pos (by simp [hb]), List.dropWhile_cons_of_pos (by simp [hb])]
        simp [List.append_assoc]
      · have hstep : aggStep agg (res, some (aggOfRun agg c cs)) k
            = (res ++ [aggOfRun agg c cs], some (aggOfRun agg k [])) := by
          simp only [aggStep, aggOfRun_timestamp]
          rw [if_pos (fun h => hb h.symm), initAgg_eq_aggOfRun]
        rw [hstep, ih (res ++ [aggOfRun agg c cs]) k []]
        rw [List.takeWhile_cons_of_neg (by simp [hb]), List.dropWhile_cons_of_neg (by simp [hb])]
        rw [bucketRuns_cons]
        simp [List.append_assoc]

/-- The aggregation fold equals the run-by-run specification aggregate. -/
theorem aggregateBaseKlines_eq_runs (agg : Int) (ks : List KLineData) :
    aggregateBaseKlines agg ks = (bucketRuns agg ks).map fun r => aggOfRun agg r.1 r.2 := by
  cases ks with
  | nil => rw [bucketRuns_nil]; rfl
  | cons k ks =>
      unfold aggregateBaseKlines
      rw [List.foldl_cons]
      have hstep : aggStep agg (([] : List KLineData), none) k = ([], some (aggOfRun agg k [])) := by
        simp [aggStep, initAgg_eq_aggOfRun]
      rw [hstep, foldl_aggStep_runs agg ks [] k [], bucketRuns_cons]
      simp

/-- The runs partition the input: flattening them restores the list. -/
theorem bucketRuns_flatten (agg : Int) :
    ∀ (n : Nat) (ks : List KLineData), ks.length ≤ n →
      ((bucketRuns agg ks).map fun r => r.1 :: r.2).flatten = ks := by
  intro n
  induction n with
  | zero =>
      intro ks hk
      have : ks = [] := List.length_eq_zero.mp (Nat.le_zero.mp hk)
      subst this
      simp [bucketRuns_nil]
  | succ n ih =>
      intro ks hk
      cases ks with
      | nil => simp [bucketRuns_nil]
      | cons k ks =>
          rw [bucketRuns_cons]
          simp only [List.map_cons, List.flatten_cons]
          rw [ih _ (by
            have := length_dropWhile_le
              (fun j => bucketStartOf agg j.timestamp == bucketStartOf agg k.timestamp) ks
            simp only [List.length_cons] at hk
            omega)]
          rw [List.cons_append, List.takeWhile_append_dropWhile]

/-- Every candle in a run's tail shares the bucket of the run's head. -/
theorem bucketRuns_same_bucket (agg : Int) :
    ∀ (n : Nat) (ks : List KLineData), ks.length ≤ n →
      ∀ r ∈ bucketRuns agg ks, ∀ j ∈ r.2,
        bucketStartOf agg j.timestamp = bucketStartOf agg r.1.timestamp := by
  intro n
  induction n with
  | zero =>
      intro ks hk
      have : ks = [] := List.length_eq_zero.mp (Nat.le_zero.mp hk)
      subst this
      simp [bucketRuns_nil]
  | succ n ih =>
      intro ks hk r hr j hj
      cases ks with
      | nil => simp [bucketRuns_nil] at hr
      | cons k ks =>
          rw [bucketRuns_cons] at hr
          rcases List.mem_cons.mp hr with rfl | hmem
          · have := List.mem_takeWhile_imp hj
            simpa using this
          · refine ih _ (by
              have := length_dropWhile_le
                (fun j => bucketStartOf agg j.timestamp == bucketStartOf agg k.timestamp) ks
              simp only [List.length_cons] at hk
              omega) r hmem j hj

theorem foldl_max_high_le (cs : List KLineData) :
    ∀ b : ℚ, b ≤ cs.foldl (fun h k => max h k.high) b ∧
      ∀ j ∈ cs, j.high ≤ cs.foldl (fun h k => max h k.high) b := by
  induction cs with
  | nil => intro b; simp
  | cons k cs ih =>
      intro b
      obtain ⟨h1, h2⟩ := ih (max b k.high)
      refine ⟨le_trans (le_max_left _ _) h1, ?_⟩
      intro j hj
      rcases List.mem_cons.mp hj with rfl | hmem
      · exact le_trans (le_max_right _ _) h1
      · exact h2 j hmem

theorem foldl_max_high_mem (cs : List KLineData) :
    ∀ b : ℚ, cs.foldl (fun h k => max h k.high) b = b ∨
      cs.foldl (fun h k => max h k.high) b ∈ cs.map KLineData.high := by
  induction cs with
  | nil => intro b; simp
  | cons k cs ih =>
      intro b
      rcases ih (max b k.high) with h | h
      · rcases max_choice b k.high with hc | hc
        · rw [List.foldl_cons, h, hc]; exact Or.inl rfl
        · rw [List.foldl_cons, h, hc]
          exact Or.inr (by simp)
      · exact Or.inr (by simp only [List.map_cons, List.mem_cons]; exact Or.inr h)

theorem foldl_min_low_le (cs : List KLineData) :
    ∀ b : ℚ, cs.foldl (fun l k => min l k.low) b ≤ b ∧
      ∀ j ∈ cs, cs.foldl (fun l k => min l k.low) b ≤ j.low := by
  induction cs with
  | nil => intro b; simp
  | cons k cs ih =>
      intro b
      obtain ⟨h1, h2⟩ := ih (min b k.low)
      refine ⟨le_trans h1 (min_le_left _ _), ?_⟩
      intro j hj
      rcases List.mem_cons.mp hj with rfl | hmem
      · exact le_trans h1 (min_le_right _ _)
      · exact h2 j hmem

theorem foldl_min_low_mem (cs : List KLineData) :
    ∀ b : ℚ, cs.foldl (fun l k => min l k.low) b = b ∨
      cs.foldl (fun l k => min l k.low) b ∈ cs.map KLineData.low := by
  induction cs with
  | nil => intro b; simp
  | cons k cs ih =>
      intro b
      rcases ih (min b k.low) with h | h
      · rcases min_choice b k.low with hc | hc
        · rw [List.foldl_cons, h, hc]; exact Or.inl rfl
        · rw [List.foldl_cons, h, hc]
          exact Or.inr (by simp)
      · exact Or.inr (by simp only [List.map_cons, List.mem_cons]; exact Or.inr h)

theorem foldl_add_volume (cs : List KLineData) :
    ∀ b : ℚ, cs.foldl (fun v k => v + k.volume) b = b + (cs.map KLineData.volume).sum := by
  induction cs with
  | nil => intro b; simp
  | cons k cs ih =>
      intro b
      rw [List.foldl_cons, ih (b + k.volume)]
      simp [add_assoc]

theorem foldl_add_turnover (cs : List KLineData) :
    ∀ b : ℚ, cs.foldl (fun v k => v + k.turnover) b = b + (cs.map KLineData.turnover).sum := by
  induction cs with
  | nil => intro b; simp
  | cons k cs ih =>
      intro b
      rw [List.foldl_cons, ih (b + k.turnover)]
      simp [add_assoc]

theorem getLast_cons_getD (c : KLineData) (cs : List KLineData) :
    cs.getLast?.getD c = (c :: cs).getLast (by simp) := by
  cases cs with
  | nil => simp
  | cons d ds =>
      have h1 : (c :: d :: ds).getLast (by simp) = (d :: ds).getLast (by simp) :=
        List.getLast_cons (by simp)
      rw [h1, List.getLast?_eq_getLast (d :: ds) (by simp), Option.getD_some]

/-- C5: for an ascending base-candle list and multiplier `m > 1`, the
aggregation fold of `getHistoryKLineData` emits exactly one coarse
candle per consecutive bucket run; every base candle lands in the
bucket `⌊timestamp / (m·baseDuration)⌋ · (m·baseDuration)` of its
coarse candle, and each coarse candle has `open` of the first
constituent, `close` of the last, `high`/`low` the max/min of the
constituents' highs/lows, and `volume`/`turnover` their sums. -/
theorem getHistoryKLineData_aggregation (m baseDuration : Int) (ks : List KLineData)
    (hm : 1 < m) (hd : 0 < baseDuration)
    (hasc : List.Chain' (fun a b => a.timestamp < b.timestamp) ks) :
    getHistoryKLineDataAggregate m baseDuration ks
        = (bucketRuns (m * baseDuration) ks).map (fun r => aggOfRun (m * baseDuration) r.1 r.2) ∧
      ((bucketRuns (m * baseDuration) ks).map fun r => r.1 :: r.2).flatten = ks ∧
      ∀ r ∈ bucketRuns (m * baseDuration) ks,
        (∀ j ∈ r.1 :: r.2,
            bucketStartOf (m * baseDuration) j.timestamp
              = (aggOfRun (m * baseDuration) r.1 r.2).timestamp) ∧
        (aggOfRun (m * baseDuration) r.1 r.2).open_ = r.1.open_ ∧
        (aggOfRun (m * baseDuration) r.1 r.2).close = ((r.1 :: r.2).getLast (by simp)).close ∧
        ((aggOfRun (m * baseDuration) r.1 r.2).high ∈ (r.1 :: r.2).map KLineData.high ∧
          ∀ j ∈ r.1 :: r.2, j.high ≤ (aggOfRun (m * baseDuration) r.1 r.2).high) ∧
        ((aggOfRun (m * baseDuration) r.1 r.2).low ∈ (r.1 :: r.2).map KLineData.low ∧
          ∀ j ∈ r.1 :: r.2, (aggOfRun (m * baseDuration) r.1 r.2).low ≤ j.low) ∧
        (aggOfRun (m * baseDuration) r.1 r.2).volume
          = ((r.1 :: r.2).map KLineData.volume).sum ∧
        (aggOfRun (m * baseDuration) r.1 r.2).turnover
          = ((r.1 :: r.2).map KLineData.turnover).sum := by
  refine ⟨?_, bucketRuns_flatten _ ks.length ks le_rfl, ?_⟩
  · unfold getHistoryKLineDataAggregate
    rw [if_neg (by omega)]
    exact aggregateBaseKlines_eq_runs _ ks
  · intro r hr
    refine ⟨?_, rfl, ?_, ⟨?_, ?_⟩, ⟨?_, ?_⟩, ?_, ?_⟩
    · intro j hj
      rcases List.mem_cons.mp hj with rfl | hmem
      · rfl
      · rw [aggOfRun_timestamp]
        exact bucketRuns_same_bucket _ ks.length ks le_rfl r hr j hmem
    · show (r.2.getLast?.getD r.1).close = _
      rw [getLast_cons_getD]
    · show r.2.foldl (fun h k => max h k.high) r.1.high ∈ _
      rcases foldl_max_high_mem r.2 r.1.high with h | h
      · rw [h]; simp
      · simp only [List.map_cons, List.mem_cons]; exact Or.inr h
    · intro j hj
      rcases List.mem_cons.mp hj with rfl | hmem
      · exact (foldl_max_high_le r.2 r.1.high).1
      · exact (foldl_max_high_le r.2 r.1.high).2 j hmem
    · show r.2.foldl (fun l k => min l k.low) r.1.low ∈ _
      rcases foldl_min_low_mem r.2 r.1.low with h | h
      · rw [h]; simp
      · simp only [List.map_cons, List.mem_cons]; exact Or.inr h
    · intro j hj
      rcases List.mem_cons.mp hj with rfl | hmem
      · exact (foldl_min_low_le r.2 r.1.low).1
      · exact (foldl_min_low_le r.2 r.1.low).2 j hmem
    · show r.2.foldl (fun v k => v + k.volume) r.1.volume = _
      rw [foldl_add_volume]
      simp
    · show r.2.foldl (fun v k => v + k.turnover) r.1.turnover = _
      rw [foldl_add_turnover]
      simp

/-- C5 witness: the aggregation theorem applied to two ascending
1-duration candles with multiplier 2 (both land in bucket 0). -/
theorem getHistoryKLineData_aggregation_witness :
    getHistoryKLineDataAggregate 2 1 [⟨0, 1, 5, 0, 2, 3, 4⟩, ⟨1, 2, 6, 1, 3, 4, 5⟩]
      = (bucketRuns 2 [⟨0, 1, 5, 0, 2, 3, 4⟩, ⟨1, 2, 6, 1, 3, 4, 5⟩]).map
          (fun r => aggOfRun 2 r.1 r.2) :=
  (getHistoryKLineData_aggregation 2 1 _ (by norm_num) (by norm_num)
    (List.chain'_cons.mpr ⟨by decide, List.chain'_singleton _⟩)).1

/-- If a backward request issued a fetch, its synchronous phase set the
reentrancy guard and suppressed the immediate callback. -/
theorem backwardStart_fetch (st : BridgeState) (p : Option Period) (hs : Bool) (fr : Int × Int)
    (h : (backwardStart st p hs).fetchRange = some fr) :
    backwardStart st p hs = ⟨{ st with isLoadingBackward := true }, some fr, none⟩ := by
  revert h
  unfold backwardStart
  split
  · exact fun h => Option.noConfusion h
  · split
    · exact fun h => Option.noConfusion h
    · split
      · exact fun h => Option.noConfusion h
      · split
        · intro h
          cases h
          rfl
        · exact fun h => Option.noConfusion h

/-- If a backward request issued no fetch, the host callback was
invoked immediately with an empty batch and `hasMore = false`, and the
state was left untouched. -/
theorem backwardStart_noFetch (st : BridgeState) (p : Option Period) (hs : Bool)
    (h : (backwardStart st p hs).fetchRange = none) :
    backwardStart st p hs = ⟨st, none, some ([], false)⟩ := by
  revert h
  unfold backwardStart
  split
  · intro _; rfl
  · split
    · intro _; rfl
    · split
      · intro _; rfl
      · split
        · exact fun h => Option.noConfusion h
        · intro _; rfl

/-- C10: `setReplayData` resets the buffer, index, offset and the
reentrancy guard but leaves `suppressBackwardLoading` untouched, so a
suppression set before a new replay session persists into it; only
`clearReplayMode` (or an explicit `setSuppressBackwardLoading false`)
resets the suppression flag. -/
theorem setReplayData_preserves_suppress (st : BridgeState) (data : List KLineData) (idx : Int) :
    setReplayData st data idx =
      { st with replayMode := true, replayData := data, replayIndex := idx,
                historicalOffset := 0, isLoadingBackward := false } ∧
    (setReplayData st data idx).suppressBackwardLoading = st.suppressBackwardLoading ∧
    (clearReplayMode st).suppressBackwardLoading = false ∧
    (setSuppressBackwardLoading st false).suppressBackwardLoading = false ∧
    (setReplayData (setSuppressBackwardLoading st true) data idx).suppressBackwardLoading = true :=
  ⟨rfl, rfl, rfl, rfl, rfl⟩

/-- C2: the absolute index served to the host is definitionally
`historicalOffset + replayIndex`, and a committed backward prepend of
`k` valid older candles increases the offset by exactly `k`, leaves
the logical index unchanged, and keeps the visible-end position on the
same candle. -/
theorem replay_index_mapping :
    (∀ st : BridgeState, visibleEndIndex st = st.historicalOffset + st.replayIndex) ∧
    (∀ (st : BridgeState) (older : List KLineData) (k : Int),
      (backwardResolve st (.ok older)).2.2 = some k →
      0 < k ∧
      (backwardResolve st (.ok older)).1.historicalOffset = st.historicalOffset + k ∧
      (backwardResolve st (.ok older)).1.replayIndex = st.replayIndex ∧
      (0 ≤ st.historicalOffset → 0 ≤ st.replayIndex →
        (backwardResolve st (.ok older)).1.replayData.get?
            (visibleEndIndex (backwardResolve st (.ok older)).1).toNat
          = st.replayData.get? (visibleEndIndex st).toNat)) := by
  refine ⟨fun st => rfl, ?_⟩
  intro st older k hk
  simp only [backwardResolve] at hk ⊢
  by_cases h1 : older.length > 0
  · rw [if_pos h1] at hk ⊢
    cases hh : st.replayData.head? with
    | none => rw [hh] at hk; cases hk
    | some c0 =>
        rw [hh] at hk
        simp only [] at hk ⊢
        by_cases h2 : ((older.filter fun d => d.timestamp < c0.timestamp).insertionSort
            (fun a b => a.timestamp ≤ b.timestamp)).length > 0
        · rw [dif_pos h2] at hk ⊢
          set valid := (older.filter fun d => d.timestamp < c0.timestamp).insertionSort
            (fun a b => a.timestamp ≤ b.timestamp) with hvalid
          by_cases h3 : (valid.getLast (by
              intro hnil
              rw [hnil] at h2
              simp at h2)).timestamp < c0.timestamp
          · rw [if_pos h3] at hk ⊢
            simp only at hk
            obtain rfl : (valid.length : Int) = k := Option.some.inj hk
            refine ⟨by exact_mod_cast h2, rfl, rfl, ?_⟩
            intro hoff hidx
            show (valid ++ st.replayData).get? _ = _
            have harith : (visibleEndIndex
                { st with replayData := valid ++ st.replayData,
                          historicalOffset := st.historicalOffset + (valid.length : Int) }).toNat
                = valid.length + (visibleEndIndex st).toNat := by
              simp only [visibleEndIndex]
              omega
            rw [harith, List.get?_append_right (by omega)]
            congr 1
            omega
          · rw [if_neg h3] at hk; cases hk
        · rw [dif_neg h2] at hk; cases hk
  · rw [if_neg h1] at hk; cases hk

/-- C2 witness: prepending one strictly older candle to a one-candle
replay buffer commits with `k = 1` and the logical index is unchanged. -/
theorem replay_index_mapping_witness :
    0 < (1 : Int) ∧
      (backwardResolve witnessBridgeState (.ok [⟨50, 1, 2, 0, 1, 3, 4⟩])).1.historicalOffset
        = witnessBridgeState.historicalOffset + 1 ∧
      (backwardResolve witnessBridgeState (.ok [⟨50, 1, 2, 0, 1, 3, 4⟩])).1.replayIndex
        = witnessBridgeState.replayIndex ∧
      (0 ≤ witnessBridgeState.historicalOffset → 0 ≤ witnessBridgeState.replayIndex →
        (backwardResolve witnessBridgeState (.ok [⟨50, 1, 2, 0, 1, 3, 4⟩])).1.replayData.get?
            (visibleEndIndex
              (backwardResolve witnessBridgeState (.ok [⟨50, 1, 2, 0, 1, 3, 4⟩])).1).toNat
          = witnessBridgeState.replayData.get? (visibleEndIndex witnessBridgeState).toNat) :=
  replay_index_mapping.2 witnessBridgeState [⟨50, 1, 2, 0, 1, 3, 4⟩] 1 (by decide)

/-- C6: while the reentrancy guard or the suppression flag is set, a
replay-mode backward request immediately yields an empty batch with
`hasMore = false` and issues no provider fetch; a request that does
issue a fetch sets the guard, so a second request started within the
guarded window (before the timed release) issues no fetch — at most
one fetch for the pair. -/
theorem backward_guard_idempotence :
    (∀ (st : BridgeState) (p : Option Period) (hs : Bool),
        st.isLoadingBackward = true ∨ st.suppressBackwardLoading = true →
        backwardStart st p hs = ⟨st, none, some ([], false)⟩) ∧
    (∀ (st : BridgeState) (p : Option Period) (hs : Bool) (fr : Int × Int),
        (backwardStart st p hs).fetchRange = some fr →
        (backwardStart st p hs).state.isLoadingBackward = true ∧
        (backwardStart (backwardStart st p hs).state p hs).fetchRange = none ∧
        (backwardStart (backwardStart st p hs).state p hs).immediate = some ([], false)) ∧
    (∀ (st : BridgeState) (p : Option Period) (hs : Bool) (ts : Option Int) (now : Int)
        (r : Except Unit (List KLineData)),
        st.replayMode = true → 0 < st.replayData.length →
        (st.isLoadingBackward = true ∨ st.suppressBackwardLoading = true) →
        getBars st .backward p hs ts now r = .ok ⟨st, some ([], false), none, none⟩) := by
  have hguard : ∀ (st : BridgeState) (p : Option Period) (hs : Bool),
      st.isLoadingBackward = true ∨ st.suppressBackwardLoading = true →
      backwardStart st p hs = ⟨st, none, some ([], false)⟩ := by
    intro st p hs h
    unfold backwardStart
    rw [if_pos]
    rcases h with h | h <;> simp [h]
  refine ⟨hguard, ?_, ?_⟩
  · intro st p hs fr hfr
    have hchar := backwardStart_fetch st p hs fr hfr
    rw [hchar]
    refine ⟨rfl, ?_, ?_⟩
    · rw [hguard _ p hs (Or.inl rfl)]
    · rw [hguard _ p hs (Or.inl rfl)]
  · intro st p hs ts now r h1 h2 h3
    unfold getBars
    rw [if_pos ⟨h1, h2⟩]
    simp only
    rw [hguard st p hs h3]

/-- C6 witness: a guarded state refuses immediately, and an unguarded
fetch-issuing request blocks a second one issued within the window. -/
theorem backward_guard_idempotence_witness :
    (backwardStart (setSuppressBackwardLoading witnessFetchState true) (some ⟨.minute, 1⟩) true
      = ⟨setSuppressBackwardLoading witnessFetchState true, none, some ([], false)⟩) ∧
    ∃ fr : Int × Int,
      (backwardStart witnessFetchState (some ⟨.minute, 1⟩) true).fetchRange = some fr ∧
      (backwardStart (backwardStart witnessFetchState (some ⟨.minute, 1⟩) true).state
          (some ⟨.minute, 1⟩) true).fetchRange = none := by
  refine ⟨backward_guard_idempotence.1 _ (some ⟨.minute, 1⟩) true (Or.inr rfl), ?_⟩
  refine ⟨(-30000000, 0), by decide, ?_⟩
  exact (backward_guard_idempotence.2.1 witnessFetchState (some ⟨.minute, 1⟩) true
    (-30000000, 0) (by decide)).2.1

/-- C1 counterexample: in the non-replay forward path a provider
rejection is not caught — `getBars` itself rejects, so the claim that
the returned promise never rejects is false. -/
theorem getBars_forward_rejection_counterexample :
    getBars initialBridgeState .forward (some ⟨.minute, 1⟩) true (some 0) 0 (.error ())
      = .error () := rfl

/-- C1 (amended): the replay backward path catches a provider
rejection and delivers an empty batch through the callback (the
returned promise resolves), but the non-replay forward path has no
`catch` — a provider rejection there propagates and the host receives
a rejected promise. -/
theorem getBars_rejection_handling :
    (∀ (st : BridgeState) (p : Option Period) (hs : Bool) (ts : Option Int) (now : Int),
        st.replayMode = true → 0 < st.replayData.length →
        ∃ out : GetBarsOut,
          getBars st .backward p hs ts now (.error ()) = .ok out ∧
            out.callbackOut = some ([], false)) ∧
    (∀ (st : BridgeState) (p : Period) (hs : Bool) (ts : Option Int) (now : Int),
        ¬ (st.replayMode = true ∧ 0 < st.replayData.length) →
        getBars st .forward (some p) hs ts now (.error ()) = .error ()) := by
  constructor
  · intro st p hs ts now h1 h2
    unfold getBars
    rw [if_pos ⟨h1, h2⟩]
    simp only
    cases hfr : (backwardStart st p hs).fetchRange with
    | none =>
        rw [backwardStart_noFetch st p hs hfr]
        exact ⟨_, rfl, rfl⟩
    | some fr =>
        rw [backwardStart_fetch st p hs fr hfr]
        exact ⟨_, rfl, rfl⟩
  · intro st p hs ts now h
    unfold getBars
    rw [if_neg h]

/-- C1 witness: the backward path on a concrete replay state resolves
(no rejection) with an empty batch even though the provider rejected. -/
theorem getBars_rejection_handling_witness :
    ∃ out : GetBarsOut,
      getBars witnessFetchState .backward (some ⟨.minute, 1⟩) true (some 0) 0 (.error ())
        = .ok out ∧ out.callbackOut = some ([], false) :=
  getBars_rejection_handling.1 witnessFetchState (some ⟨.minute, 1⟩) true (some 0) 0
    rfl (by decide)

theorem advanceCandle_preserves (c : ReplayController) :
    (advanceCandle c).1.state.totalCandles = c.state.totalCandles ∧
    (c.state.currentIndex ≤ c.state.totalCandles - 1 →
      (advanceCandle c).1.state.currentIndex ≤ c.state.totalCandles - 1) := by
  unfold advanceCandle pause stopTimer
  split_ifs <;> exact ⟨rfl, fun _ => by dsimp only; omega⟩

theorem iterateAdvance_bound (k : Nat) :
    ∀ c : ReplayController, c.state.currentIndex ≤ c.state.totalCandles - 1 →
      (iterateAdvance k c).state.totalCandles = c.state.totalCandles ∧
      (iterateAdvance k c).state.currentIndex ≤ c.state.totalCandles - 1 := by
  induction k with
  | zero => exact fun c h => ⟨rfl, h⟩
  | succ n ih =>
      intro c h
      obtain ⟨hN, hle⟩ := advanceCandle_preserves c
      obtain ⟨ihN, ihle⟩ := ih (advanceCandle c).1 (by rw [hN]; exact hle h)
      exact ⟨by rw [show iterateAdvance (n + 1) c = iterateAdvance n (advanceCandle c).1 from rfl,
        ihN, hN], by rw [show iterateAdvance (n + 1) c = iterateAdvance n (advanceCandle c).1 from rfl]; omega⟩

/-- C3: during playback over `N ≥ 1` candles, a tick from index
`i < N − 1` increments the index and emits one progress event; a tick
from index `N − 1` pauses the clock, disarms the timer, leaves the
index at `N − 1` and emits exactly one end-reached event; and iterated
ticks never move the index past `N − 1`. -/
theorem advanceCandle_never_past_end (c : ReplayController) (N i : Int)
    (hact : c.state.isActive = true) (hpl : c.state.isPaused = false)
    (hN : c.state.totalCandles = N) (hN1 : 1 ≤ N) (hi : c.state.currentIndex = i) :
    (i < N - 1 →
      (advanceCandle c).1.state.currentIndex = i + 1 ∧
      (advanceCandle c).2
        = [.candleProgress (i + 1) (c.state.fullData.take (i + 1 + 1).toNat)]) ∧
    (i = N - 1 →
      (advanceCandle c).1.state.currentIndex = i ∧
      (advanceCandle c).1.state.isPaused = true ∧
      (advanceCandle c).1.timerArmed = false ∧
      (advanceCandle c).2 = [.replayEnd]) ∧
    (∀ k : Nat, i ≤ N - 1 → (iterateAdvance k c).state.currentIndex ≤ N - 1) := by
  refine ⟨?_, ?_, ?_⟩
  · intro hlt
    unfold advanceCandle
    rw [if_pos (by omega)]
    subst hi
    exact ⟨rfl, rfl⟩
  · intro heq
    unfold advanceCandle
    rw [if_neg (by omega)]
    unfold pause
    rw [if_neg (by simp [hact, hpl])]
    unfold stopTimer
    split_ifs with ht
    · dsimp only
      exact ⟨hi, rfl, rfl, rfl⟩
    · dsimp only at ht ⊢
      exact ⟨hi, rfl, by simpa using ht, rfl⟩
  · intro k hk
    have := iterateAdvance_bound k c (by omega)
    omega

/-- C3 witness: a playing two-candle replay clock, applied to the
main theorem at index 0. -/
theorem advanceCandle_never_past_end_witness :
    ((0 : Int) < 2 - 1 →
      (advanceCandle ⟨⟨true, false, 1, 0, 0, 2, [⟨0, 1, 2, 0, 1, 3, 4⟩, ⟨5, 1, 2, 0, 1, 3, 4⟩]⟩,
          true, none⟩).1.state.currentIndex = 0 + 1 ∧
      (advanceCandle ⟨⟨true, false, 1, 0, 0, 2, [⟨0, 1, 2, 0, 1, 3, 4⟩, ⟨5, 1, 2, 0, 1, 3, 4⟩]⟩,
          true, none⟩).2
        = [.candleProgress (0 + 1)
            (([⟨0, 1, 2, 0, 1, 3, 4⟩, ⟨5, 1, 2, 0, 1, 3, 4⟩] : List KLineData).take
              ((0 : Int) + 1 + 1).toNat)]) ∧
    ((0 : Int) = 2 - 1 →
      (advanceCandle ⟨⟨true, false, 1, 0, 0, 2, [⟨0, 1, 2, 0, 1, 3, 4⟩, ⟨5, 1, 2, 0, 1, 3, 4⟩]⟩,
          true, none⟩).1.state.currentIndex = 0 ∧
      (advanceCandle ⟨⟨true, false, 1, 0, 0, 2, [⟨0, 1, 2, 0, 1, 3, 4⟩, ⟨5, 1, 2, 0, 1, 3, 4⟩]⟩,
          true, none⟩).1.state.isPaused = true ∧
      (advanceCandle ⟨⟨true, false, 1, 0, 0, 2, [⟨0, 1, 2, 0, 1, 3, 4⟩, ⟨5, 1, 2, 0, 1, 3, 4⟩]⟩,
          true, none⟩).1.timerArmed = false ∧
      (advanceCandle ⟨⟨true, false, 1, 0, 0, 2, [⟨0, 1, 2, 0, 1, 3, 4⟩, ⟨5, 1, 2, 0, 1, 3, 4⟩]⟩,
          true, none⟩).2 = [.replayEnd]) ∧
    (∀ k : Nat, (0 : Int) ≤ 2 - 1 →
      (iterateAdvance k ⟨⟨true, false, 1, 0, 0, 2,
          [⟨0, 1, 2, 0, 1, 3, 4⟩, ⟨5, 1, 2, 0, 1, 3, 4⟩]⟩,
        true, none⟩).state.currentIndex ≤ 2 - 1) :=
  advanceCandle_never_past_end
    ⟨⟨true, false, 1, 0, 0, 2, [⟨0, 1, 2, 0, 1, 3, 4⟩, ⟨5, 1, 2, 0, 1, 3, 4⟩]⟩, true, none⟩
    2 0 rfl rfl rfl (by norm_num) rfl

/-- C9: `start` installs a fresh state that is paused with speed
multiplier 1, so any speed previously chosen through `setSpeed` is
discarded — restarting replay always resets playback to 1x. -/
theorem start_resets_speed (c : ReplayController) (s : ℚ) (t : Int) (data : List KLineData) :
    (start (setSpeed c s) t data).1.state = (start c t data).1.state ∧
    (start c t data).1.state.speed = 1 ∧
    (start c t data).1.state.isPaused = true ∧
    (start c t data).1.state.isActive = true :=
  ⟨rfl, rfl, rfl, rfl⟩
